import Mathlib

/-!
Verification of the data-access and recommendation core of an
education-tracking backend (generic Firestore repository, diagnostic-driven
recommendation engine, cohort analytics), via a shallow embedding.

Conventions of the embedding:
* A collection is a list of documents in the order the backing query streams
  them; document keys are natural numbers and strictly increase along the
  stream (document-name tiebreak of the store).  The store-level filter
  `deleted != True` keeps only documents whose deleted flag is false, and
  since every listed document carries the flag, the induced stream order for
  the filtered queries used here coincides with key order.
* Python floats are modelled as rationals; machine timestamps as naturals.
* Schema validation of a stored document is abstracted by a `valid` flag on
  the document (validation looks only at the stored payload); an item list
  returned by a repository read stands for the list of validated models.
* Fallible operations return `Option`/`Except`; an HTTP 404/400 raised by a
  repository mutation is `none`.
-/

namespace Cognify

/-- A stored document: key (document id), payload, lifecycle fields and a
flag recording whether the stored data passes schema validation. -/
structure DocOf (α : Type) where
  key : Nat
  payload : α
  deleted : Bool
  deletedAt : Option Nat
  updatedAt : Option Nat
  valid : Bool
  deriving DecidableEq, Repr

/-- A sample payload-free document used by concrete instantiations. -/
def mkDoc (i : Nat) (del valid : Bool) : DocOf Unit :=
  { key := i, payload := (), deleted := del, deletedAt := none,
    updatedAt := none, valid := valid }

/-- The three deleted-status modes accepted by the repository read. -/
inductive DelStatus where
  | nonDeleted
  | deletedOnly
  | all
  deriving DecidableEq, Repr

/-- Store-level filter applied by get_all for a given deleted-status, present
only on models that subclass TimestampModel (hasTs). -/
def statusFilter (hasTs : Bool) (st : DelStatus) (d : DocOf α) : Bool :=
  if hasTs then
    match st with
    | .nonDeleted => !d.deleted
    | .deletedOnly => d.deleted
    | .all => true
  else
    true

/-- Cursor application: the code looks the cursor id up in the collection and
silently ignores a cursor whose document does not exist; otherwise the query
resumes strictly after that document's position. -/
def applyCursor (coll base : List (DocOf α)) (c : Option Nat) : List (DocOf α) :=
  match c with
  | none => base
  | some cv =>
      if coll.any (fun d => d.key == cv) then
        base.filter (fun d => cv < d.key)
      else
        base

/-- Embedding of FirestoreModelService.get_all: filter by deleted status,
resume after the cursor, take at most limit documents, drop documents that
fail validation, and return the id of the last streamed document as the next
cursor. -/
def svcGetAll (hasTs : Bool) (coll : List (DocOf α)) (st : DelStatus)
    (limit : Nat) (startAfter : Option Nat) :
    List (DocOf α) × Option Nat :=
  let base := coll.filter (statusFilter hasTs st)
  let docs := (applyCursor coll base startAfter).take limit
  (docs.filter (fun d => d.valid), (docs.getLast?).map (fun d => d.key))

/-- Embedding of FirestoreModelService.where: the caller's field predicate
plus, for lifecycle-tracked models, the store-level non-deleted filter; then
the same pagination contract as get_all. -/
def svcWhere (hasTs : Bool) (coll : List (DocOf α)) (pred : DocOf α → Bool)
    (limit : Nat) (startAfter : Option Nat) :
    List (DocOf α) × Option Nat :=
  let base := coll.filter (fun d => pred d && (!hasTs || !d.deleted))
  let docs := (applyCursor coll base startAfter).take limit
  (docs.filter (fun d => d.valid), (docs.getLast?).map (fun d => d.key))

/-- Embedding of FirestoreModelService.get: a missing document, a
soft-deleted document on a lifecycle-tracked model (unless includeDeleted),
or a document failing schema validation all read as none. -/
def svcGet (hasTs : Bool) (coll : List (DocOf α)) (docId : Nat)
    (includeDeleted : Bool) : Option (DocOf α) :=
  match coll.find? (fun d => d.key == docId) with
  | none => none
  | some d =>
      if d.deleted && !includeDeleted && hasTs then none
      else if d.valid then some d
      else none

/-- The soft-delete write: stamp deleted and deleted_at on the addressed
document, leaving every other document untouched. -/
def softDeleteMark (coll : List (DocOf α)) (docId t : Nat) : List (DocOf α) :=
  coll.map (fun d =>
    if d.key == docId then { d with deleted := true, deletedAt := some t }
    else d)

/-- Embedding of FirestoreModelService.delete: 404 (none) when the document
does not exist; soft delete for lifecycle-tracked models, hard delete
otherwise. -/
def svcDelete (hasTs : Bool) (coll : List (DocOf α)) (docId t : Nat) :
    Option (List (DocOf α)) :=
  if coll.any (fun d => d.key == docId) then
    some (if hasTs then softDeleteMark coll docId t
          else coll.filter (fun d => d.key != docId))
  else none

/-- The restore write: clear the soft-delete stamp and stamp updated_at. -/
def restoreMark (coll : List (DocOf α)) (docId t : Nat) : List (DocOf α) :=
  coll.map (fun d =>
    if d.key == docId then
      { d with deleted := false, deletedAt := none, updatedAt := some t }
    else d)

/-- Embedding of FirestoreModelService.restore: 404 (none) when missing, 400
(none) when the model is not lifecycle-tracked, else clear the stamp. -/
def svcRestore (hasTs : Bool) (coll : List (DocOf α)) (docId t : Nat) :
    Option (List (DocOf α)) :=
  if coll.any (fun d => d.key == docId) then
    if hasTs then some (restoreMark coll docId t) else none
  else none

/-- One page-chaining loop: call the page function, and while it returns a
next cursor feed that cursor into the next call, concatenating the items. -/
def chainPages (page : Option Nat → List (DocOf α) × Option Nat) :
    Nat → Option Nat → List (DocOf α)
  | 0, _ => []
  | fuel + 1, cursor =>
      let r := page cursor
      match r.2 with
      | none => r.1
      | some c => r.1 ++ chainPages page fuel (some c)

/-! ## purge_where

The code streams every matching document, adds deletions to a write batch,
commits the batch each time the running count hits a multiple of 499, and
always issues a final commit for the remainder (possibly an empty batch).
Any exception escapes to a catch-all handler that returns 0. -/

/-- The purge loop's batching: the running count increments per document and
the batch is committed whenever it hits a multiple of 499, with one final
commit (possibly of an empty batch) after the loop. -/
def commitChunksGo (cnt : Nat) (cur : List (DocOf α)) :
    List (DocOf α) → List (List (DocOf α))
  | [] => [cur.reverse]
  | d :: ds =>
      if (cnt + 1) % 499 = 0 then
        (d :: cur).reverse :: commitChunksGo (cnt + 1) [] ds
      else
        commitChunksGo (cnt + 1) (d :: cur) ds

/-- The per-commit groups produced by the purge loop: full groups of 499
followed by one final (possibly empty) group. -/
def commitChunks (l : List (DocOf α)) : List (List (DocOf α)) :=
  commitChunksGo 0 [] l

/-- Outcome of purge_where, parameterized by the index of the first failing
batch commit (none when every commit succeeds): the pair of the count the
call returns and the number of documents actually removed from the store. -/
def purgeOutcome (coll : List (DocOf α)) (pred : DocOf α → Bool)
    (failAt : Option Nat) : Nat × Nat :=
  let ds := coll.filter pred
  if ds.isEmpty then (0, 0)
  else
    let chunks := commitChunks ds
    match failAt with
    | none => (ds.length, ds.length)
    | some j =>
        if j < chunks.length then
          (0, ((chunks.take j).map List.length).sum)
        else
          (ds.length, ds.length)

/-! ## Recommendation engine (enhanced_recommender.py)

The engine's repository reads (the diagnostic result, the subject's modules
and quizzes) are inputs of the embedding; persistence success for one
topic's recommendation is an oracle so that per-topic persistence failures
can be quantified over. -/

/-- Performance breakdown by TOS topic (TOSPerformance model). The bloom
breakdown dict is carried as an association list in insertion order. -/
structure TOSPerf where
  topic_title : String
  total_questions : Int
  correct_answers : Int
  score_percentage : Rat
  bloom_breakdown : List (String × Rat)
  deriving DecidableEq, Repr

/-- A stored diagnostic result (DiagnosticResult model), restricted to the
fields the engine reads plus its scalar metadata. -/
structure DiagResult where
  user_id : String
  subject_id : String
  overall_score : Rat
  passing_status : String
  tos_performance : List TOSPerf
  deriving DecidableEq, Repr

/-- A module as the engine sees it (Module model): title and bloom level are
optional in the schema. -/
structure ModuleDoc where
  id : String
  subject_id : Option String
  title : Option String
  bloom_level : Option String
  deriving DecidableEq, Repr

/-- A quiz as the engine sees it (Quiz model). -/
structure QuizDoc where
  id : String
  subject_id : Option String
  topic_title : Option String
  bloom_level : Option String
  deriving DecidableEq, Repr

/-- The recommendation record (RecommendationBase fields; the engine's
reference to EnhancedRecommendationBase resolves to this replacement
model's field set). -/
structure RecBase where
  user_id : String
  subject_id : String
  recommended_topic : String
  recommended_modules : List String
  recommended_quizzes : List String
  bloom_focus : String
  priority : String
  reason : String
  diagnostic_result_id : Option String
  confidence : Rat
  timestamp : Option String
  deriving DecidableEq, Repr

/-- Stand-in for the %.1f float formatting used inside the reason string (no
claim depends on the rendered digits). -/
def pyFormat1f (q : Rat) : String :=
  toString q

/-- Python str.split(): split on whitespace and drop empty pieces. -/
def pySplit (s : String) : List String :=
  (s.split Char.isWhitespace).filter (fun w => w ≠ "")

/-- Containment of a contiguous run (the Python `in` test on strings),
spelled on character lists. -/
def listHasRun [DecidableEq β] : List β → List β → Bool
  | _, [] => true
  | [], _ :: _ => false
  | a :: as, b :: bs => List.isPrefixOf (b :: bs) (a :: as) || listHasRun as (b :: bs)

/-- kw occurs as a substring of hay. -/
def strHasSub (hay kw : String) : Bool :=
  listHasRun hay.toList kw.toList

/-- Python min(items, key=value) on dict items: the first pair attaining the
minimal value; none on an empty dict (where CPython raises ValueError). -/
def minByVal : List (String × Rat) → Option (String × Rat)
  | [] => none
  | x :: xs => some (xs.foldl (fun b y => if y.2 < b.2 then y else b) x)

/-- The module relevance filter. Evaluating m.title.lower() on a module with
a null title raises (AttributeError), which the embedding surfaces as an
error; Python's any() short-circuits to False on an empty keyword list
before touching the title. -/
def moduleRelevant (keywords : List String) (bloom : String)
    (m : ModuleDoc) : Except Unit Bool :=
  match keywords with
  | [] => .ok false
  | _ :: _ =>
      match m.title with
      | none => .error ()
      | some t =>
          .ok (keywords.any (fun kw => strHasSub t.toLower kw) &&
               m.bloom_level == some bloom)

/-- Traversal of the module list under the relevance filter, propagating the
null-title error. -/
def relevantModules (keywords : List String) (bloom : String) :
    List ModuleDoc → Except Unit (List ModuleDoc)
  | [] => .ok []
  | m :: ms =>
      match moduleRelevant keywords bloom m with
      | .error e => .error e
      | .ok b =>
          match relevantModules keywords bloom ms with
          | .error e => .error e
          | .ok rest => .ok (if b then m :: rest else rest)

/-- The quiz relevance filter: (q.topic_title or "") never raises. -/
def quizRelevant (keywords : List String) (bloom : String) (q : QuizDoc) : Bool :=
  keywords.any (fun kw => strHasSub (q.topic_title.getD "").toLower kw) &&
    q.bloom_level == some bloom

/-- The priority tiering of the engine. -/
def priorityOf (bloomScore : Rat) : String :=
  if bloomScore < 50 then "high" else if bloomScore < 65 then "medium" else "low"

/-- The recommendation built for one weak topic, given the already selected
weakest bloom level and its score. -/
def buildRec (resultId now : String) (res : DiagResult) (modules : List ModuleDoc)
    (quizzes : List QuizDoc) (e : TOSPerf) (bloomLevel : String)
    (bloomScore : Rat) : Except Unit RecBase :=
  let keywords := pySplit e.topic_title.toLower
  match relevantModules keywords bloomLevel modules with
  | .error u => .error u
  | .ok mods =>
      let qs := quizzes.filter (quizRelevant keywords bloomLevel)
      .ok
        { user_id := res.user_id
          subject_id := res.subject_id
          recommended_topic := e.topic_title
          recommended_modules := (mods.take 3).map (fun m => m.id)
          recommended_quizzes := (qs.take 3).map (fun q => q.id)
          bloom_focus := bloomLevel
          priority := priorityOf bloomScore
          reason :=
            "Diagnostic test shows low performance in '" ++ e.topic_title ++
              "' (" ++ pyFormat1f e.score_percentage ++
              "%). Weakest cognitive level: '" ++ bloomLevel ++ "' (" ++
              pyFormat1f bloomScore ++ "%)."
          diagnostic_result_id := some resultId
          confidence := (9 : Rat) / 10
          timestamp := some now }

/-- The per-topic loop of generate_recommendations_from_diagnostic. The
accumulator is the list of recommendations persisted so far; an error value
carries that list at the point the unhandled exception escapes (empty bloom
breakdown, or a null module title), while a persistence failure for one
topic is swallowed and the loop continues. -/
def runTopics (resultId now : String) (res : DiagResult) (modules : List ModuleDoc)
    (quizzes : List QuizDoc) (persistOk : TOSPerf → Bool) :
    List TOSPerf → List RecBase → Except (List RecBase) (List RecBase)
  | [], acc => .ok acc
  | e :: rest, acc =>
      if e.score_percentage ≥ 75 then
        runTopics resultId now res modules quizzes persistOk rest acc
      else
        match minByVal e.bloom_breakdown with
        | none => .error acc
        | some (bl, bs) =>
            match buildRec resultId now res modules quizzes e bl bs with
            | .error _ => .error acc
            | .ok r =>
                if persistOk e then
                  runTopics resultId now res modules quizzes persistOk rest (acc ++ [r])
                else
                  runTopics resultId now res modules quizzes persistOk rest acc

/-- Embedding of generate_recommendations_from_diagnostic: a missing fetch
returns the empty list; otherwise the topic loop runs over the result's
tos_performance entries. -/
def generateRecsFromDiagnostic (resultId now : String) (fetched : Option DiagResult)
    (modules : List ModuleDoc) (quizzes : List QuizDoc)
    (persistOk : TOSPerf → Bool) : Except (List RecBase) (List RecBase) :=
  match fetched with
  | none => .ok []
  | some res => runTopics resultId now res modules quizzes persistOk res.tos_performance []

/-! ## Cohort analytics (analytics_service.py) -/

/-- Round-half-to-even on a rational, the tie rule of Python's round(). -/
def roundHalfEven (x : Rat) : Int :=
  let f : Int := ⌊x⌋
  let r : Rat := x - f
  if r < 1 / 2 then f
  else if 1 / 2 < r then f + 1
  else if f % 2 = 0 then f else f + 1

/-- safe_float's rounding to two decimal places. -/
def round2 (x : Rat) : Rat :=
  (roundHalfEven (100 * x) : Rat) / 100

/-- A student's inputs to the prediction, as read off the activity summary:
the (already rounded) average score and average completion rate. -/
structure StudentSummary where
  average_score : Rat
  completion_rate : Rat
  deriving DecidableEq, Repr

/-- Embedding of apply_prediction_logic: the weighted probability, the
score-priority override at 75 and the failsafe below 60; returns the
predicted_to_pass flag together with the (pre-rounding) confidence value. -/
def applyPredictionLogic (s : StudentSummary) : Bool × Rat :=
  let probability := s.average_score * (8 / 10) + s.completion_rate * (2 / 10)
  let isPassing := decide (probability ≥ 75)
  let pair :=
    if s.average_score ≥ 75 then (true, max probability s.average_score)
    else (isPassing, probability)
  if s.average_score < 60 then (false, pair.2) else pair

/-- The per-student pass prediction the global report records. -/
def predictedToPass (s : StudentSummary) : Bool :=
  (applyPredictionLogic s).1

/-- The cohort roll-up of get_global_analytics_report: pass count, fail
count, and the pass rate as a two-decimal percentage. -/
def cohortSummary (students : List StudentSummary) : Nat × Nat × Rat :=
  let total := students.length
  let passCount := (students.filter predictedToPass).length
  let failCount := total - passCount
  let passRate :=
    if 0 < total then round2 ((passCount : Rat) / (total : Rat) * 100) else 0
  (passCount, failCount, passRate)

/-! ## Model validation (database/models.py)

Pydantic validation of the two models under test checks field types (and the
priority literal); the embedding receives already well-typed field values,
applies exactly the field validators the model declares, and returns none
when one rejects. -/

/-- Validation of TOSPerformance: the model declares no field validator, so
every well-typed value is accepted. -/
def validateTOSPerformance (topicTitle : String) (totalQuestions correctAnswers : Int)
    (scorePercentage : Rat) (bloomBreakdown : List (String × Rat)) :
    Option TOSPerf :=
  some
    { topic_title := topicTitle
      total_questions := totalQuestions
      correct_answers := correctAnswers
      score_percentage := scorePercentage
      bloom_breakdown := bloomBreakdown }

/-- Validation of RecommendationBase: the priority literal is the only
constraint beyond field types; confidence carries no range check. -/
def validateRecommendationBase (userId subjectId recommendedTopic : String)
    (recommendedModules recommendedQuizzes : List String)
    (bloomFocus priority reason : String) (diagnosticResultId : Option String)
    (confidence : Rat) (timestamp : Option String) : Option RecBase :=
  if priority = "high" ∨ priority = "medium" ∨ priority = "low" then
    some
      { user_id := userId
        subject_id := subjectId
        recommended_topic := recommendedTopic
        recommended_modules := recommendedModules
        recommended_quizzes := recommendedQuizzes
        bloom_focus := bloomFocus
        priority := priority
        reason := reason
        diagnostic_result_id := diagnosticResultId
        confidence := confidence
        timestamp := timestamp }
  else
    none

/-! ## Helper lemmas -/

theorem minByVal_isSome (l : List (String × Rat)) (h : l ≠ []) :
    ∃ p, minByVal l = some p := by
  cases l with
  | nil => exact absurd rfl h
  | cons x xs => exact ⟨_, rfl⟩

theorem foldlMin_spec (xs : List (String × Rat)) (b : String × Rat) :
    (xs.foldl (fun b y => if y.2 < b.2 then y else b) b = b ∨
      xs.foldl (fun b y => if y.2 < b.2 then y else b) b ∈ xs) ∧
    (xs.foldl (fun b y => if y.2 < b.2 then y else b) b).2 ≤ b.2 ∧
    ∀ q ∈ xs, (xs.foldl (fun b y => if y.2 < b.2 then y else b) b).2 ≤ q.2 := by
  induction xs generalizing b with
  | nil => simp
  | cons y ys ih =>
      simp only [List.foldl_cons]
      obtain ⟨hmem, hle, hall⟩ := ih (if y.2 < b.2 then y else b)
      refine ⟨?_, ?_, ?_⟩
      · rcases hmem with h | h
        · rw [h]
          by_cases hy : y.2 < b.2
          · simp only [if_pos hy]
            exact Or.inr (List.mem_cons_self _ _)
          · simp only [if_neg hy]
            exact Or.inl trivial
        · exact Or.inr (List.mem_cons_of_mem _ h)
      · refine le_trans hle ?_
        by_cases hy : y.2 < b.2
        · simp only [if_pos hy]; exact le_of_lt hy
        · simp only [if_neg hy]; exact le_refl _
      · intro q hq
        rcases List.mem_cons.mp hq with h | h
        · subst h
          refine le_trans hle ?_
          by_cases hy : q.2 < b.2
          · simp only [if_pos hy]; exact le_refl _
          · simp only [if_neg hy]; exact le_of_not_lt hy
        · exact hall q h

theorem minByVal_spec (l : List (String × Rat)) (p : String × Rat)
    (h : minByVal l = some p) : p ∈ l ∧ ∀ q ∈ l, p.2 ≤ q.2 := by
  cases l with
  | nil => cases h
  | cons x xs =>
      simp only [minByVal, Option.some.injEq] at h
      obtain ⟨hmem, hle, hall⟩ := foldlMin_spec xs x
      subst h
      constructor
      · rcases hmem with h | h
        · rw [h]; exact List.mem_cons_self _ _
        · exact List.mem_cons_of_mem _ h
      · intro q hq
        rcases List.mem_cons.mp hq with h | h
        · subst h; exact hle
        · exact hall q h

theorem moduleRelevant_ok (keywords : List String) (bloom : String)
    (m : ModuleDoc) (h : m.title ≠ none) :
    ∃ b, moduleRelevant keywords bloom m = .ok b := by
  cases hmr : moduleRelevant keywords bloom m with
  | ok b => exact ⟨b, rfl⟩
  | error u =>
      exfalso
      cases keywords with
      | nil => simp only [moduleRelevant] at hmr; cases hmr
      | cons kw kws =>
          cases ht : m.title with
          | none => exact absurd ht h
          | some t => simp only [moduleRelevant, ht] at hmr; cases hmr

theorem relevantModules_ok (keywords : List String) (bloom : String)
    (modules : List ModuleDoc) (h : ∀ m ∈ modules, m.title ≠ none) :
    ∃ mods, relevantModules keywords bloom modules = .ok mods := by
  induction modules with
  | nil => exact ⟨[], rfl⟩
  | cons m ms ih =>
      obtain ⟨b, hb⟩ := moduleRelevant_ok keywords bloom m (h m (List.mem_cons_self _ _))
      obtain ⟨mods, hmods⟩ := ih (fun x hx => h x (List.mem_cons_of_mem _ hx))
      cases hrel : relevantModules keywords bloom (m :: ms) with
      | ok l => exact ⟨l, rfl⟩
      | error u =>
          exfalso
          simp only [relevantModules, hb, hmods] at hrel
          cases hrel

theorem buildRec_ok (resultId now : String) (res : DiagResult)
    (modules : List ModuleDoc) (quizzes : List QuizDoc) (e : TOSPerf)
    (bl : String) (bs : Rat) (h : ∀ m ∈ modules, m.title ≠ none) :
    ∃ r, buildRec resultId now res modules quizzes e bl bs = .ok r := by
  obtain ⟨mods, hmods⟩ :=
    relevantModules_ok (pySplit e.topic_title.toLower) bl modules h
  cases hb : buildRec resultId now res modules quizzes e bl bs with
  | ok r => exact ⟨r, rfl⟩
  | error u =>
      exfalso
      simp only [buildRec, hmods] at hb
      cases hb

theorem buildRec_fields (resultId now : String) (res : DiagResult)
    (modules : List ModuleDoc) (quizzes : List QuizDoc) (e : TOSPerf)
    (bl : String) (bs : Rat) (r : RecBase)
    (h : buildRec resultId now res modules quizzes e bl bs = .ok r) :
    r.recommended_topic = e.topic_title ∧ r.bloom_focus = bl ∧
      r.priority = priorityOf bs := by
  simp only [buildRec] at h
  cases hrel : relevantModules (pySplit e.topic_title.toLower) bl modules with
  | error u => rw [hrel] at h; cases h
  | ok mods =>
      rw [hrel] at h
      simp only [Except.ok.injEq] at h
      subst h
      exact ⟨rfl, rfl, rfl⟩

theorem commitChunksGo_flatten {α : Type} (l : List (DocOf α)) :
    ∀ (cnt : Nat) (cur : List (DocOf α)),
      (commitChunksGo cnt cur l).flatten = cur.reverse ++ l := by
  induction l with
  | nil => intro cnt cur; simp [commitChunksGo]
  | cons d ds ih =>
      intro cnt cur
      by_cases h : (cnt + 1) % 499 = 0
      · simp [commitChunksGo, h, ih]
      · simp [commitChunksGo, h, ih]

theorem commitChunks_flatten {α : Type} (l : List (DocOf α)) :
    (commitChunks l).flatten = l := by
  simp [commitChunks, commitChunksGo_flatten]

theorem runTopics_append (resultId now : String) (res : DiagResult)
    (modules : List ModuleDoc) (quizzes : List QuizDoc) (persistOk : TOSPerf → Bool)
    (xs : List TOSPerf) :
    ∀ (ys : List TOSPerf) (acc acc' : List RecBase),
      runTopics resultId now res modules quizzes persistOk xs acc = .ok acc' →
      runTopics resultId now res modules quizzes persistOk (xs ++ ys) acc =
        runTopics resultId now res modules quizzes persistOk ys acc' := by
  induction xs with
  | nil =>
      intro ys acc acc' h
      simp only [runTopics, Except.ok.injEq] at h
      subst h
      simp
  | cons e xs ih =>
      intro ys acc acc' h
      simp only [runTopics, List.cons_append] at h ⊢
      by_cases h75 : e.score_percentage ≥ 75
      · rw [if_pos h75] at h ⊢
        exact ih ys acc acc' h
      · rw [if_neg h75] at h ⊢
        cases hmin : minByVal e.bloom_breakdown with
        | none => rw [hmin] at h; cases h
        | some p =>
            obtain ⟨bl, bs⟩ := p
            simp only [hmin] at h ⊢
            cases hb : buildRec resultId now res modules quizzes e bl bs with
            | error u => simp only [hb] at h; cases h
            | ok r =>
                simp only [hb] at h ⊢
                by_cases hp : persistOk e = true
                · rw [if_pos hp] at h ⊢
                  exact ih ys (acc ++ [r]) acc' h
                · rw [if_neg hp] at h ⊢
                  exact ih ys acc acc' h

theorem runTopics_ok_build (resultId now : String) (res : DiagResult)
    (modules : List ModuleDoc) (quizzes : List QuizDoc)
    (htitle : ∀ m ∈ modules, m.title ≠ none) :
    ∀ (entries : List TOSPerf) (acc : List RecBase),
      (∀ e ∈ entries, e.score_percentage < 75 → e.bloom_breakdown ≠ []) →
      ∃ l, runTopics resultId now res modules quizzes (fun _ => true) entries acc =
            .ok (acc ++ l) ∧
        l.map (fun r => r.recommended_topic) =
          (entries.filter (fun e => decide (e.score_percentage < 75))).map
            (fun e => e.topic_title) := by
  intro entries
  induction entries with
  | nil => intro acc _; exact ⟨[], by simp [runTopics]⟩
  | cons e rest ih =>
      intro acc hbb
      by_cases h75 : e.score_percentage ≥ 75
      · obtain ⟨l, hl, hmap⟩ := ih acc (fun x hx hx75 =>
          hbb x (List.mem_cons_of_mem _ hx) hx75)
        refine ⟨l, ?_, ?_⟩
        · simp only [runTopics, if_pos h75]
          exact hl
        · have : decide (e.score_percentage < 75) = false := by
            simp [not_lt.mpr h75]
          simp only [List.filter_cons, this, Bool.false_eq_true, if_neg, ite_false]
          exact hmap
      · have hsp : e.score_percentage < 75 := lt_of_not_ge h75
        have hbbe := hbb e (List.mem_cons_self _ _) hsp
        obtain ⟨p, hmin⟩ := minByVal_isSome _ hbbe
        obtain ⟨bl, bs⟩ := p
        obtain ⟨r, hr⟩ := buildRec_ok resultId now res modules quizzes e bl bs htitle
        obtain ⟨l, hl, hmap⟩ := ih (acc ++ [r]) (fun x hx hx75 =>
          hbb x (List.mem_cons_of_mem _ hx) hx75)
        refine ⟨r :: l, ?_, ?_⟩
        · simp only [runTopics, if_neg h75, hmin, hr, if_pos]
          rw [hl]
          simp
        · have : decide (e.score_percentage < 75) = true := by simp [hsp]
          simp only [List.filter_cons, this, if_pos, List.map_cons, ite_true]
          refine congrArg₂ _ ?_ hmap
          exact (buildRec_fields resultId now res modules quizzes e bl bs r hr).1

/-! ## Claim theorems -/

/-- C10: whenever the repository read of the diagnostic result id yields
none (the document is missing, soft-deleted, or fails schema validation),
generate_recommendations_from_diagnostic returns the empty list without
raising, and — the ok payload being the list of persisted records — persists
no Recommendation. -/
theorem C10_missing_result_yields_empty (store : List (DocOf DiagResult))
    (docId : Nat) (resultId now : String) (modules : List ModuleDoc)
    (quizzes : List QuizDoc) (persistOk : TOSPerf → Bool)
    (h : svcGet true store docId false = none) :
    generateRecsFromDiagnostic resultId now
      ((svcGet true store docId false).map (fun d => d.payload))
      modules quizzes persistOk = .ok [] := by
  rw [h]
  rfl

/-- C10 witness: on the empty diagnostic-result store the read is none and
the engine returns the empty list. -/
theorem C10_witness :
    svcGet true ([] : List (DocOf DiagResult)) 7 false = none ∧
    generateRecsFromDiagnostic "d7" "t0"
      ((svcGet true ([] : List (DocOf DiagResult)) 7 false).map (fun d => d.payload))
      [] [] (fun _ => true) = .ok [] :=
  ⟨rfl, C10_missing_result_yields_empty [] 7 "d7" "t0" [] [] (fun _ => true) rfl⟩

/-- C9: an entry with score below 75 and an empty bloom_breakdown makes the
engine raise (min of an empty sequence) when it reaches that entry: the call
fails with exactly the recommendations persisted by the entries before it,
and nothing is produced for that topic or for any later entry; only
persistence failures (the persistOk oracle, arbitrary here) are isolated per
topic. -/
theorem C9_empty_bloom_breakdown_raises (resultId now : String)
    (res : DiagResult) (modules : List ModuleDoc) (quizzes : List QuizDoc)
    (persistOk : TOSPerf → Bool) (pre post : List TOSPerf) (e : TOSPerf)
    (l : List RecBase)
    (hres : res.tos_performance = pre ++ e :: post)
    (hsp : e.score_percentage < 75) (hbb : e.bloom_breakdown = [])
    (hpre : runTopics resultId now res modules quizzes persistOk pre [] = .ok l) :
    generateRecsFromDiagnostic resultId now (some res) modules quizzes persistOk
      = .error l := by
  simp only [generateRecsFromDiagnostic, hres]
  rw [runTopics_append resultId now res modules quizzes persistOk pre
      (e :: post) [] l hpre]
  simp only [runTopics, if_neg (not_le.mpr hsp), hbb, minByVal]

/-- C9 witness: a passing first entry, then a weak entry with an empty bloom
breakdown, then a further entry: the run fails with no persisted record. -/
theorem C9_witness :
    generateRecsFromDiagnostic "d1" "t0"
      (some ⟨"u1", "s1", 60, "failed",
        [⟨"Done", 5, 5, 100, [("remembering", 80)]⟩,
         ⟨"Weak", 4, 1, 50, []⟩,
         ⟨"After", 2, 1, 50, [("applying", 40)]⟩]⟩)
      [] [] (fun _ => true) = .error [] :=
  C9_empty_bloom_breakdown_raises "d1" "t0"
    ⟨"u1", "s1", 60, "failed",
      [⟨"Done", 5, 5, 100, [("remembering", 80)]⟩,
       ⟨"Weak", 4, 1, 50, []⟩,
       ⟨"After", 2, 1, 50, [("applying", 40)]⟩]⟩
    [] [] (fun _ => true)
    [⟨"Done", 5, 5, 100, [("remembering", 80)]⟩]
    [⟨"After", 2, 1, 50, [("applying", 40)]⟩]
    ⟨"Weak", 4, 1, 50, []⟩ [] rfl (by norm_num) rfl rfl

/-- C1 counterexample: a diagnostic result with one entry below the 75
threshold (k = 1) whose bloom_breakdown is empty makes the run raise with
zero persisted records, even though every persist succeeds — so the run does
not yield exactly k persisted Recommendation records. -/
theorem C1_counterexample :
    generateRecsFromDiagnostic "d1" "t0"
      (some ⟨"u1", "s1", 50, "failed", [⟨"Fractions", 4, 1, 50, []⟩]⟩)
      [] [] (fun _ => true) = .error [] ∧
    (([⟨"Fractions", 4, 1, 50, []⟩] : List TOSPerf).filter
      (fun e => decide (e.score_percentage < 75))).length = 1 :=
  ⟨rfl, rfl⟩

/-- C1 (amended): provided additionally that every below-threshold entry has
a nonempty bloom_breakdown and every module passed to the matcher has a
non-null title (either omission aborts the run with an unhandled exception),
a run in which every persist succeeds persists exactly one Recommendation
per entry with score_percentage < 75.0 — in order, one per qualifying topic
— and none for any entry with score_percentage ≥ 75.0. -/
theorem C1_weak_topic_cardinality (resultId now : String) (res : DiagResult)
    (modules : List ModuleDoc) (quizzes : List QuizDoc)
    (htitle : ∀ m ∈ modules, m.title ≠ none)
    (hbb : ∀ e ∈ res.tos_performance, e.score_percentage < 75 →
      e.bloom_breakdown ≠ []) :
    ∃ l, generateRecsFromDiagnostic resultId now (some res) modules quizzes
          (fun _ => true) = .ok l ∧
      l.map (fun r => r.recommended_topic) =
        (res.tos_performance.filter (fun e => decide (e.score_percentage < 75))).map
          (fun e => e.topic_title) ∧
      l.length =
        (res.tos_performance.filter (fun e => decide (e.score_percentage < 75))).length := by
  obtain ⟨l, hl, hmap⟩ := runTopics_ok_build resultId now res modules quizzes
    htitle res.tos_performance [] hbb
  refine ⟨l, ?_, hmap, ?_⟩
  · simpa [generateRecsFromDiagnostic] using hl
  · have := congrArg List.length hmap
    simpa using this

/-- C1 witness: a result with one weak and one passing entry (k = 1), all
persists succeeding, yields exactly one recommendation, for the weak topic. -/
theorem C1_witness :
    (∀ m ∈ ([] : List ModuleDoc), m.title ≠ none) ∧
    (∀ e ∈ ([⟨"Algebra", 10, 5, 55, [("remembering", 90), ("applying", 40)]⟩,
             ⟨"Geometry", 10, 9, 90, [("remembering", 95)]⟩] : List TOSPerf),
      e.score_percentage < 75 → e.bloom_breakdown ≠ []) ∧
    (∃ l, generateRecsFromDiagnostic "d1" "t0"
        (some ⟨"u1", "s1", 62, "failed",
          [⟨"Algebra", 10, 5, 55, [("remembering", 90), ("applying", 40)]⟩,
           ⟨"Geometry", 10, 9, 90, [("remembering", 95)]⟩]⟩)
        [] [] (fun _ => true) = .ok l ∧
      l.map (fun r => r.recommended_topic) =
        (([⟨"Algebra", 10, 5, 55, [("remembering", 90), ("applying", 40)]⟩,
           ⟨"Geometry", 10, 9, 90, [("remembering", 95)]⟩] : List TOSPerf).filter
          (fun e => decide (e.score_percentage < 75))).map (fun e => e.topic_title) ∧
      l.length =
        (([⟨"Algebra", 10, 5, 55, [("remembering", 90), ("applying", 40)]⟩,
           ⟨"Geometry", 10, 9, 90, [("remembering", 95)]⟩] : List TOSPerf).filter
          (fun e => decide (e.score_percentage < 75))).length) :=
  ⟨fun m hm => absurd hm (List.not_mem_nil m),
   by decide,
   C1_weak_topic_cardinality "d1" "t0"
     ⟨"u1", "s1", 62, "failed",
       [⟨"Algebra", 10, 5, 55, [("remembering", 90), ("applying", 40)]⟩,
        ⟨"Geometry", 10, 9, 90, [("remembering", 95)]⟩]⟩
     [] [] (fun m hm => absurd hm (List.not_mem_nil m)) (by decide)⟩

/-- C2: for a weak topic the engine reaches, the chosen bloom_focus is the
(first) key of bloom_breakdown attaining the minimum average score, and the
priority is high when that minimum is below 50, medium below 65, low
otherwise. -/
theorem C2_weakest_bloom_and_priority (resultId now : String) (res : DiagResult)
    (modules : List ModuleDoc) (quizzes : List QuizDoc) (e : TOSPerf)
    (bl : String) (bs : Rat)
    (htitle : ∀ m ∈ modules, m.title ≠ none)
    (hsp : e.score_percentage < 75)
    (hmin : minByVal e.bloom_breakdown = some (bl, bs)) :
    (bl, bs) ∈ e.bloom_breakdown ∧ (∀ q ∈ e.bloom_breakdown, bs ≤ q.2) ∧
    ∃ r, runTopics resultId now res modules quizzes (fun _ => true) [e] [] =
        .ok [r] ∧
      r.bloom_focus = bl ∧
      r.priority =
        (if bs < 50 then "high" else if bs < 65 then "medium" else "low") := by
  obtain ⟨hm, hall⟩ := minByVal_spec _ _ hmin
  obtain ⟨r, hr⟩ := buildRec_ok resultId now res modules quizzes e bl bs htitle
  have hf := buildRec_fields resultId now res modules quizzes e bl bs r hr
  refine ⟨hm, hall, r, ?_, hf.2.1, ?_⟩
  · simp [runTopics, if_neg (not_le.mpr hsp), hmin, hr]
  · rw [hf.2.2]
    rfl

/-- C2 witness: the spec's example — score_percentage 55 with breakdown
remembering 90, applying 40 yields bloom_focus applying and priority high. -/
theorem C2_witness :
    ((("applying" : String), (40 : Rat)) ∈
        [(("remembering" : String), (90 : Rat)), ("applying", 40)] ∧
      (∀ q ∈ [(("remembering" : String), (90 : Rat)), ("applying", 40)],
        (40 : Rat) ≤ q.2) ∧
      ∃ r, runTopics "d1" "t0" ⟨"u1", "s1", 55, "failed",
            [⟨"Algebra Basics", 10, 5, 55, [("remembering", 90), ("applying", 40)]⟩]⟩
          [] [] (fun _ => true)
          [⟨"Algebra Basics", 10, 5, 55, [("remembering", 90), ("applying", 40)]⟩]
          [] = .ok [r] ∧
        r.bloom_focus = "applying" ∧
        r.priority = (if (40 : Rat) < 50 then "high"
          else if (40 : Rat) < 65 then "medium" else "low")) ∧
    (if (40 : Rat) < 50 then "high"
      else if (40 : Rat) < 65 then "medium" else "low") = "high" :=
  ⟨C2_weakest_bloom_and_priority "d1" "t0"
      ⟨"u1", "s1", 55, "failed",
        [⟨"Algebra Basics", 10, 5, 55, [("remembering", 90), ("applying", 40)]⟩]⟩
      [] [] ⟨"Algebra Basics", 10, 5, 55, [("remembering", 90), ("applying", 40)]⟩
      "applying" 40 (fun m hm => absurd hm (List.not_mem_nil m))
      (by norm_num) rfl,
   by norm_num⟩

/-- C7 counterexample: model validation accepts a TOSPerformance with
score_percentage 150 (outside [0,100]) and a RecommendationBase with
confidence 5 (outside [0,1]); neither model declares a range validator, so
such instances ARE constructible through validation. -/
theorem C7_counterexample :
    (validateTOSPerformance "Algebra" 10 5 150 []).isSome = true ∧
    ¬ ((150 : Rat) ≤ 100) ∧
    (validateRecommendationBase "u1" "s1" "Algebra" [] [] "applying" "high"
      "reason" none 5 none).isSome = true ∧
    ¬ ((5 : Rat) ≤ 1) :=
  ⟨rfl, by norm_num, rfl, by norm_num⟩

/-- C7 (amended): validation of the two models constrains field types and
the priority literal only; score_percentage and confidence carry no range
check, so validation accepts every rational value for them. -/
theorem C7_no_range_validation (topicTitle : String)
    (totalQuestions correctAnswers : Int) (scorePercentage : Rat)
    (bloomBreakdown : List (String × Rat)) (userId subjectId recTopic : String)
    (recModules recQuizzes : List String) (bloomFocus reason : String)
    (diagId : Option String) (confidence : Rat) (timestamp : Option String)
    (priority : String)
    (hpr : priority = "high" ∨ priority = "medium" ∨ priority = "low") :
    (validateTOSPerformance topicTitle totalQuestions correctAnswers
      scorePercentage bloomBreakdown).isSome = true ∧
    (validateRecommendationBase userId subjectId recTopic recModules recQuizzes
      bloomFocus priority reason diagId confidence timestamp).isSome = true := by
  constructor
  · rfl
  · simp [validateRecommendationBase, hpr]

/-- C7 witness: both validators accept out-of-range values at concrete
inputs. -/
theorem C7_witness :
    ("high" = "high" ∨ "high" = "medium" ∨ "high" = "low") ∧
    (validateTOSPerformance "T" 10 5 (-3) []).isSome = true ∧
    (validateRecommendationBase "u" "s" "T" [] [] "applying" "high" "r" none
      (7 / 2) none).isSome = true :=
  ⟨Or.inl rfl,
   C7_no_range_validation "T" 10 5 (-3) [] "u" "s" "T" [] [] "applying" "r"
     none (7 / 2) none "high" (Or.inl rfl)⟩

set_option maxRecDepth 100000 in
/-- C6 counterexample: purging 500 matching documents with the second batch
commit failing deletes the 499 documents of the first committed batch, yet
the call returns 0 — the returned count does not reflect the number of
documents actually deleted before the failure. -/
theorem C6_counterexample :
    purgeOutcome ((List.range 500).map (fun i => mkDoc i false true))
      (fun _ => true) (some 1) = (0, 499) ∧
    (0 : Nat) ≠ 499 :=
  ⟨by decide, by decide⟩

/-- C6 (amended): batch-commit failures are not retried; when every commit
succeeds the call returns the number of matching documents (all deleted),
and when commit j fails the call returns 0 while the documents actually
deleted are exactly those of the j batches committed before the failure (at
most the matching count) — so the returned count understates a partial
purge. -/
theorem C6_purge_failure_returns_zero {α : Type} (coll : List (DocOf α))
    (pred : DocOf α → Bool) (j : Nat)
    (hne : coll.filter pred ≠ [])
    (hj : j < (commitChunks (coll.filter pred)).length) :
    purgeOutcome coll pred none =
      ((coll.filter pred).length, (coll.filter pred).length) ∧
    purgeOutcome coll pred (some j) =
      (0, (((commitChunks (coll.filter pred)).take j).map List.length).sum) ∧
    (((commitChunks (coll.filter pred)).take j).map List.length).sum ≤
      (coll.filter pred).length := by
  have hne' : (coll.filter pred).isEmpty = false := by
    cases hf : coll.filter pred with
    | nil => exact absurd hf hne
    | cons a l => rfl
  refine ⟨?_, ?_, ?_⟩
  · simp [purgeOutcome, hne']
  · simp [purgeOutcome, hne', hj]
  · calc (((commitChunks (coll.filter pred)).take j).map List.length).sum
        ≤ ((commitChunks (coll.filter pred)).map List.length).sum := by
          conv_rhs => rw [← List.take_append_drop j (commitChunks (coll.filter pred))]
          rw [List.map_append, List.sum_append]
          exact Nat.le_add_right _ _
      _ = (commitChunks (coll.filter pred)).flatten.length := (List.length_flatten _).symm
      _ = (coll.filter pred).length := by rw [commitChunks_flatten]

/-- C6 witness: one matching document, the sole (final) commit fails: the
call returns 0 and nothing was deleted before the failure. -/
theorem C6_witness :
    (([mkDoc 0 false true].filter (fun _ => true)) ≠ [] ∧
      0 < (commitChunks ([mkDoc 0 false true].filter (fun _ => true))).length) ∧
    purgeOutcome [mkDoc 0 false true] (fun _ => true) (some 0) = (0, 0) :=
  ⟨⟨by decide, by decide⟩,
   (C6_purge_failure_returns_zero [mkDoc 0 false true]
     (fun _ => true) 0 (by decide) (by decide)).2.1⟩

/-- C8 counterexample: a two-document page whose last fetched document fails
validation returns only the first document as an item, yet the next cursor
is the id of the skipped last document — not the id of the last item
returned. -/
theorem C8_counterexample :
    svcGetAll true [mkDoc 1 false true, mkDoc 2 false false] .nonDeleted 2 none
      = ([mkDoc 1 false true], some 2) ∧
    ([mkDoc 1 false true].getLast?.map (fun d => d.key)) = some 1 ∧
    some (2 : Nat) ≠ some (1 : Nat) :=
  ⟨by decide, by decide, by decide⟩

/-- C8 (amended): get_all returns at most limit items; invalid documents are
skipped (every returned item is valid and the page is exactly the valid
subset of the fetched window, so the page succeeds as a whole); the next
cursor is the id of the last FETCHED document of the window — which is the
last returned item only when that document validates; and a null cursor
starts the window at the head of the filtered collection. -/
theorem C8_get_all_page_contract {α : Type} (hasTs : Bool)
    (coll : List (DocOf α)) (st : DelStatus) (k : Nat) (c : Option Nat) :
    (svcGetAll hasTs coll st k c).1.length ≤ k ∧
    (svcGetAll hasTs coll st k c).1 =
      ((applyCursor coll (coll.filter (statusFilter hasTs st)) c).take k).filter
        (fun d => d.valid) ∧
    (svcGetAll hasTs coll st k c).2 =
      (((applyCursor coll (coll.filter (statusFilter hasTs st)) c).take k).getLast?).map
        (fun d => d.key) ∧
    (svcGetAll hasTs coll st k none).1 =
      ((coll.filter (statusFilter hasTs st)).take k).filter (fun d => d.valid) := by
  refine ⟨?_, rfl, rfl, rfl⟩
  calc (svcGetAll hasTs coll st k c).1.length
      ≤ ((applyCursor coll (coll.filter (statusFilter hasTs st)) c).take k).length :=
        List.length_filter_le _ _
    _ ≤ k := List.length_take_le _ _

/-- C3 pointwise: with the stored completion rate bounded in [0,1] (the
Activity model validates completion_rate into that range), the weighted
probability of a sub-75 score can never reach the 75 passing bar, so the
prediction collapses to the hard threshold: predicted_to_pass iff the
average score is at least 75. -/
theorem predictedToPass_iff_threshold (s : StudentSummary)
    (h0 : 0 ≤ s.completion_rate) (h1 : s.completion_rate ≤ 1) :
    predictedToPass s = decide (75 ≤ s.average_score) := by
  unfold predictedToPass applyPredictionLogic
  by_cases h75 : (75 : Rat) ≤ s.average_score
  · have h60 : ¬ (s.average_score < 60) := not_lt.mpr (le_trans (by norm_num) h75)
    simp [h75, h60, ge_iff_le]
  · have hlt : s.average_score < 75 := lt_of_not_ge h75
    by_cases h60 : s.average_score < 60
    · simp [h75, h60, ge_iff_le]
    · have hp : ¬ (75 ≤ s.average_score * (8 / 10) + s.completion_rate * (2 / 10)) := by
        push_neg
        nlinarith [h0, h1, hlt]
      simp [h75, h60, hp, ge_iff_le]

/-- C3: for a cohort whose per-student completion rates lie in [0,1], each
student is classified predicted-to-pass iff their average score is at least
75, and the cohort pass rate is passCount over totalStudents times 100,
rounded to two decimals; fail count is the complement. -/
theorem C3_cohort_pass_rate (students : List StudentSummary)
    (hcr : ∀ s ∈ students, 0 ≤ s.completion_rate ∧ s.completion_rate ≤ 1)
    (hne : students ≠ []) :
    (∀ s ∈ students, predictedToPass s = decide (75 ≤ s.average_score)) ∧
    (cohortSummary students).1 =
      (students.filter (fun s => decide (75 ≤ s.average_score))).length ∧
    (cohortSummary students).2.1 = students.length - (cohortSummary students).1 ∧
    (cohortSummary students).2.2 =
      round2 (((cohortSummary students).1 : Rat) / (students.length : Rat) * 100) := by
  have hpt : ∀ s ∈ students, predictedToPass s = decide (75 ≤ s.average_score) :=
    fun s hs => predictedToPass_iff_threshold s (hcr s hs).1 (hcr s hs).2
  have hfil : students.filter predictedToPass =
      students.filter (fun s => decide (75 ≤ s.average_score)) :=
    List.filter_congr hpt
  refine ⟨hpt, ?_, rfl, ?_⟩
  · show (students.filter predictedToPass).length = _
    rw [hfil]
  · show (if 0 < students.length then
        round2 (((students.filter predictedToPass).length : Rat) /
          (students.length : Rat) * 100) else 0) = _
    rw [if_pos (List.length_pos.mpr hne)]
    rfl

/-- C3 witness: the cohort with average scores 80, 60, 75 (completion rates
in range) has pass count 2, fail count 1 and pass rate 66.67. -/
theorem C3_witness :
    (∀ s ∈ ([⟨80, 1⟩, ⟨60, 1⟩, ⟨75, 0⟩] : List StudentSummary),
      0 ≤ s.completion_rate ∧ s.completion_rate ≤ 1) ∧
    ((∀ s ∈ ([⟨80, 1⟩, ⟨60, 1⟩, ⟨75, 0⟩] : List StudentSummary),
        predictedToPass s = decide (75 ≤ s.average_score)) ∧
      (cohortSummary [⟨80, 1⟩, ⟨60, 1⟩, ⟨75, 0⟩]).1 =
        (([⟨80, 1⟩, ⟨60, 1⟩, ⟨75, 0⟩] : List StudentSummary).filter
          (fun s => decide (75 ≤ s.average_score))).length ∧
      (cohortSummary [⟨80, 1⟩, ⟨60, 1⟩, ⟨75, 0⟩]).2.1 =
        ([⟨80, 1⟩, ⟨60, 1⟩, ⟨75, 0⟩] : List StudentSummary).length -
          (cohortSummary [⟨80, 1⟩, ⟨60, 1⟩, ⟨75, 0⟩]).1 ∧
      (cohortSummary [⟨80, 1⟩, ⟨60, 1⟩, ⟨75, 0⟩]).2.2 =
        round2 (((cohortSummary [⟨80, 1⟩, ⟨60, 1⟩, ⟨75, 0⟩]).1 : Rat) /
          (([⟨80, 1⟩, ⟨60, 1⟩, ⟨75, 0⟩] : List StudentSummary).length : Rat) * 100)) ∧
    (cohortSummary [⟨80, 1⟩, ⟨60, 1⟩, ⟨75, 0⟩]).1 = 2 ∧
    (cohortSummary [⟨80, 1⟩, ⟨60, 1⟩, ⟨75, 0⟩]).2.1 = 1 ∧
    (cohortSummary [⟨80, 1⟩, ⟨60, 1⟩, ⟨75, 0⟩]).2.2 = 6667 / 100 := by
  have hcr : ∀ s ∈ ([⟨80, 1⟩, ⟨60, 1⟩, ⟨75, 0⟩] : List StudentSummary),
      0 ≤ s.completion_rate ∧ s.completion_rate ≤ 1 := by decide
  have hne : ([⟨80, 1⟩, ⟨60, 1⟩, ⟨75, 0⟩] : List StudentSummary) ≠ [] := by decide
  have hmain := C3_cohort_pass_rate _ hcr hne
  have hpass : (cohortSummary [⟨80, 1⟩, ⟨60, 1⟩, ⟨75, 0⟩]).1 = 2 := by
    rw [hmain.2.1]; decide
  have hfail : (cohortSummary [⟨80, 1⟩, ⟨60, 1⟩, ⟨75, 0⟩]).2.1 = 1 := by
    rw [hmain.2.2.1, hpass]
    rfl
  refine ⟨hcr, hmain, hpass, hfail, ?_⟩
  have hrate := hmain.2.2.2
  rw [hrate, hpass]
  show round2 ((2 : Rat) / 3 * 100) = 6667 / 100
  have hfloor : ⌊(100 : Rat) * ((2 : Rat) / 3 * 100)⌋ = 6666 := by
    norm_num [Int.floor_eq_iff]
  simp only [round2, roundHalfEven, hfloor]
  norm_num

theorem pairwise_getLast_max {α : Type} (l : List (DocOf α))
    (hl : l.Pairwise (fun a b => a.key < b.key)) (x : DocOf α)
    (hx : l.getLast? = some x) :
    ∀ a ∈ l, a = x ∨ a.key < x.key := by
  induction l with
  | nil => cases hx
  | cons a l ih =>
      cases l with
      | nil =>
          simp only [List.getLast?_singleton, Option.some.injEq] at hx
          intro b hb
          rw [List.mem_singleton] at hb
          subst hb
          exact Or.inl hx
      | cons b t =>
          rw [List.getLast?_cons_cons] at hx
          have hxmem : x ∈ b :: t := List.mem_of_mem_getLast? hx
          intro a' ha'
          rcases List.mem_cons.mp ha' with rfl | ha'
          · exact Or.inr ((List.pairwise_cons.mp hl).1 x hxmem)
          · exact ih (List.pairwise_cons.mp hl).2 hx a' ha'

theorem pairwise_filter_gt_last_take {α : Type} (g : List (DocOf α))
    (hg : g.Pairwise (fun a b => a.key < b.key)) (k : Nat) (x : DocOf α)
    (hx : (g.take k).getLast? = some x) :
    g.filter (fun d => decide (x.key < d.key)) = g.drop k := by
  have hxt : x ∈ g.take k := List.mem_of_mem_getLast? hx
  have hpair := hg
  conv_lhs => rw [← List.take_append_drop k g]
  rw [← List.take_append_drop k g] at hpair
  obtain ⟨h1, h2, h3⟩ := List.pairwise_append.mp hpair
  rw [List.filter_append]
  have htake : (g.take k).filter (fun d => decide (x.key < d.key)) = [] := by
    rw [List.filter_eq_nil_iff]
    intro a ha
    rcases pairwise_getLast_max (g.take k) h1 x hx a ha with rfl | hlt
    · simp
    · simp only [decide_eq_true_eq]
      omega
  have hdrop : (g.drop k).filter (fun d => decide (x.key < d.key)) = g.drop k := by
    rw [List.filter_eq_self]
    intro a ha
    simp only [decide_eq_true_eq]
    exact h3 x hxt a ha
  rw [htake, hdrop, List.nil_append]

theorem chainPages_spec {α : Type} (coll : List (DocOf α)) (p : DocOf α → Bool)
    (k : Nat) (page : Option Nat → List (DocOf α) × Option Nat)
    (hpage : ∀ c, page c =
      (((applyCursor coll (coll.filter p) c).take k).filter (fun d => d.valid),
       (((applyCursor coll (coll.filter p) c).take k).getLast?).map (fun d => d.key)))
    (hk : 1 ≤ k)
    (hsort : coll.Pairwise (fun a b => a.key < b.key))
    (hvalid : ∀ d ∈ coll, d.valid = true) :
    ∀ (fuel : Nat) (c : Option Nat) (g : List (DocOf α)),
      applyCursor coll (coll.filter p) c = g →
      g.length < fuel →
      chainPages page fuel c = g := by
  intro fuel
  induction fuel with
  | zero => intro c g hg hl; omega
  | succ n ih =>
      intro c g hg hlen
      have hsubl : g.Sublist coll := by
        rw [← hg]
        cases c with
        | none =>
            simp only [applyCursor]
            exact List.filter_sublist _
        | some cv =>
            simp only [applyCursor]
            by_cases hcv : coll.any (fun d => d.key == cv) = true
            · rw [if_pos hcv]
              exact List.Sublist.trans (List.filter_sublist _) (List.filter_sublist _)
            · rw [if_neg hcv]
              exact List.filter_sublist _
      have hgsort : g.Pairwise (fun a b => a.key < b.key) :=
        List.Pairwise.sublist hsubl hsort
      have hgvalid : ∀ d ∈ g, d.valid = true := fun d hd => hvalid d (hsubl.subset hd)
      simp only [chainPages, hpage c, hg]
      cases hlast : (g.take k).getLast? with
      | none =>
          have htnil : g.take k = [] := List.getLast?_eq_none_iff.mp hlast
          have hgnil : g = [] := by
            rcases List.take_eq_nil_iff.mp htnil with h | h
            · omega
            · exact h
          simp [hlast, hgnil]
      | some x =>
          have hxg : x ∈ g := List.mem_of_mem_take (List.mem_of_mem_getLast? hlast)
          have hxcoll : x ∈ coll := hsubl.subset hxg
          have hdocs : (g.take k).filter (fun d => d.valid) = g.take k := by
            rw [List.filter_eq_self]
            intro a ha
            exact hgvalid a (List.mem_of_mem_take ha)
          have hany : coll.any (fun d => d.key == x.key) = true := by
            rw [List.any_eq_true]
            exact ⟨x, hxcoll, by simp⟩
          have hnext : applyCursor coll (coll.filter p) (some x.key) = g.drop k := by
            simp only [applyCursor]
            rw [if_pos hany]
            cases c with
            | none =>
                have hgeq : coll.filter p = g := hg
                rw [hgeq]
                exact pairwise_filter_gt_last_take g hgsort k x hlast
            | some cv =>
                by_cases hcv : coll.any (fun d => d.key == cv) = true
                · have hgeq : (coll.filter p).filter (fun d => decide (cv < d.key)) = g := by
                    simpa [applyCursor, hcv] using hg
                  have hxmem := hxg
                  rw [← hgeq] at hxmem
                  have hcvx : cv < x.key := by
                    have := (List.mem_filter.mp hxmem).2
                    simpa using this
                  have hswap : (coll.filter p).filter (fun d => decide (x.key < d.key)) =
                      g.filter (fun d => decide (x.key < d.key)) := by
                    have hcongr : (coll.filter p).filter (fun d => decide (x.key < d.key)) =
                        (coll.filter p).filter
                          (fun d => decide (x.key < d.key) && decide (cv < d.key)) := by
                      refine List.filter_congr ?_
                      intro d _
                      by_cases hxd : x.key < d.key
                      · have : cv < d.key := lt_trans hcvx hxd
                        simp [hxd, this]
                      · simp [hxd]
                    rw [hcongr, ← List.filter_filter, hgeq]
                  rw [hswap]
                  exact pairwise_filter_gt_last_take g hgsort k x hlast
                · have hgeq : coll.filter p = g := by
                    simpa [applyCursor, hcv] using hg
                  rw [hgeq]
                  exact pairwise_filter_gt_last_take g hgsort k x hlast
          have hglen : 0 < g.length := List.length_pos.mpr (by
            intro hnil
            rw [hnil] at hxg
            cases hxg)
          have hlen' : (g.drop k).length < n := by
            rw [List.length_drop]
            omega
          have hrec := ih (some x.key) (g.drop k) hnext hlen'
          simp only [Option.map_some']
          rw [hdocs, hrec, List.take_append_drop]

/-- C4: over a collection in stream order (strictly increasing keys) whose
documents all validate, chaining pages of any size k ≥ 1 by feeding each
returned cursor into the next call enumerates, for get_all, exactly the
non-deleted records in order, and, for where with any fixed filter, exactly
the filtered non-deleted records in order — no record skipped, none
duplicated, regardless of k. -/
theorem C4_pagination_exactly_once {α : Type} (coll : List (DocOf α))
    (pred : DocOf α → Bool) (k fuel : Nat)
    (hsort : coll.Pairwise (fun a b => a.key < b.key))
    (hvalid : ∀ d ∈ coll, d.valid = true)
    (hk : 1 ≤ k) (hfuel : coll.length < fuel) :
    chainPages (fun c => svcGetAll true coll .nonDeleted k c) fuel none =
      coll.filter (fun d => !d.deleted) ∧
    chainPages (fun c => svcWhere true coll pred k c) fuel none =
      coll.filter (fun d => pred d && !d.deleted) := by
  constructor
  · exact chainPages_spec coll (fun d => !d.deleted) k _ (fun c => rfl) hk hsort
      hvalid fuel none _ rfl
      (lt_of_le_of_lt (List.length_filter_le _ _) hfuel)
  · exact chainPages_spec coll (fun d => pred d && !d.deleted) k _ (fun c => rfl)
      hk hsort hvalid fuel none _ rfl
      (lt_of_le_of_lt (List.length_filter_le _ _) hfuel)

/-- C4 witness: a three-document collection with one soft-deleted record,
page size 1: chaining visits exactly the two live records once each, in
order, for both get_all and where. -/
theorem C4_witness :
    (([mkDoc 1 false true, mkDoc 2 true true, mkDoc 3 false true] :
        List (DocOf Unit)).Pairwise (fun a b => a.key < b.key) ∧
      (∀ d ∈ ([mkDoc 1 false true, mkDoc 2 true true, mkDoc 3 false true] :
        List (DocOf Unit)), d.valid = true)) ∧
    (chainPages
        (fun c => svcGetAll true
          [mkDoc 1 false true, mkDoc 2 true true, mkDoc 3 false true]
          .nonDeleted 1 c) 4 none =
      ([mkDoc 1 false true, mkDoc 2 true true, mkDoc 3 false true] :
        List (DocOf Unit)).filter (fun d => !d.deleted) ∧
     chainPages
        (fun c => svcWhere true
          [mkDoc 1 false true, mkDoc 2 true true, mkDoc 3 false true]
          (fun d => decide (d.key ≤ 3)) 1 c) 4 none =
      ([mkDoc 1 false true, mkDoc 2 true true, mkDoc 3 false true] :
        List (DocOf Unit)).filter (fun d => decide (d.key ≤ 3) && !d.deleted)) ∧
    ([mkDoc 1 false true, mkDoc 2 true true, mkDoc 3 false true] :
        List (DocOf Unit)).filter (fun d => !d.deleted) =
      [mkDoc 1 false true, mkDoc 3 false true] :=
  ⟨⟨by decide, by decide⟩,
   C4_pagination_exactly_once
     [mkDoc 1 false true, mkDoc 2 true true, mkDoc 3 false true]
     (fun d => decide (d.key ≤ 3)) 1 4 (by decide) (by decide)
     (by decide) (by decide),
   by decide⟩

theorem find?_key_of_map {α : Type} (coll : List (DocOf α)) (i : Nat)
    (f : DocOf α → DocOf α) (hf : ∀ x, (f x).key = x.key) :
    (coll.map f).find? (fun x => x.key == i) =
      (coll.find? (fun x => x.key == i)).map f := by
  rw [List.find?_map]
  have hp : ((fun x : DocOf α => x.key == i) ∘ f) = (fun x => x.key == i) := by
    funext x
    simp [Function.comp, hf x]
  rw [hp]

theorem mem_applyCursor {α : Type} (coll base : List (DocOf α)) (c : Option Nat)
    (x : DocOf α) (hx : x ∈ applyCursor coll base c) : x ∈ base := by
  cases c with
  | none => exact hx
  | some cv =>
      simp only [applyCursor] at hx
      by_cases hcv : coll.any (fun d => d.key == cv) = true
      · rw [if_pos hcv] at hx
        exact (List.mem_filter.mp hx).1
      · rw [if_neg hcv] at hx
        exact hx

theorem mem_softDeleteMark_ne_key {α : Type} (coll : List (DocOf α)) (i t : Nat)
    (x : DocOf α) (hx : x ∈ softDeleteMark coll i t) (hdel : x.deleted = false) :
    x.key ≠ i := by
  obtain ⟨y, hy, hfy⟩ := List.mem_map.mp hx
  by_cases hk : (y.key == i) = true
  · rw [if_pos hk] at hfy
    rw [← hfy] at hdel
    cases hdel
  · rw [if_neg hk] at hfy
    subst hfy
    simpa using hk

/-- C5: after delete(id) on a lifecycle-tracked record, get(id) is none; the
record's id is absent from every get_all (non-deleted) page and every where
page; get(id, include_deleted) still returns it, now carrying deleted=true
with deleted_at set; restore(id) succeeds and a subsequent get(id) returns
the record again with deleted=false and deleted_at cleared. -/
theorem C5_soft_delete_visibility {α : Type} (coll : List (DocOf α))
    (d : DocOf α) (i t t' : Nat)
    (hfind : coll.find? (fun x => x.key == i) = some d)
    (hvalid : d.valid = true) :
    svcDelete true coll i t = some (softDeleteMark coll i t) ∧
    svcGet true (softDeleteMark coll i t) i false = none ∧
    (∀ limit c, ∀ x ∈ (svcGetAll true (softDeleteMark coll i t)
        .nonDeleted limit c).1, x.key ≠ i) ∧
    (∀ (pred : DocOf α → Bool) limit c,
      ∀ x ∈ (svcWhere true (softDeleteMark coll i t) pred limit c).1, x.key ≠ i) ∧
    svcGet true (softDeleteMark coll i t) i true =
      some { d with deleted := true, deletedAt := some t } ∧
    ({ d with deleted := true, deletedAt := some t } : DocOf α).deleted = true ∧
    ({ d with deleted := true, deletedAt := some t } : DocOf α).deletedAt = some t ∧
    svcRestore true (softDeleteMark coll i t) i t' =
      some (restoreMark (softDeleteMark coll i t) i t') ∧
    svcGet true (restoreMark (softDeleteMark coll i t) i t') i false =
      some { d with deleted := false, deletedAt := none, updatedAt := some t' } ∧
    ({ d with deleted := false, deletedAt := none, updatedAt := some t' } :
      DocOf α).deleted = false := by
  have hmem : d ∈ coll := List.mem_of_find?_eq_some hfind
  have hkey := List.find?_some hfind
  have hany : coll.any (fun x => x.key == i) = true :=
    List.any_eq_true.mpr ⟨d, hmem, hkey⟩
  have hkeyf : ∀ x : DocOf α,
      ((if x.key == i then { x with deleted := true, deletedAt := some t }
        else x) : DocOf α).key = x.key := by
    intro x
    by_cases h : (x.key == i) = true
    · rw [if_pos h]
    · rw [if_neg h]
  have hfind1 : (softDeleteMark coll i t).find? (fun x => x.key == i) =
      some { d with deleted := true, deletedAt := some t } := by
    unfold softDeleteMark
    rw [find?_key_of_map coll i _ hkeyf, hfind]
    simp only [Option.map_some']
    rw [if_pos hkey]
  have hkeyg : ∀ x : DocOf α,
      ((if x.key == i then
          { x with deleted := false, deletedAt := none, updatedAt := some t' }
        else x) : DocOf α).key = x.key := by
    intro x
    by_cases h : (x.key == i) = true
    · rw [if_pos h]
    · rw [if_neg h]
  have hfind2 : (restoreMark (softDeleteMark coll i t) i t').find?
      (fun x => x.key == i) =
      some { d with deleted := false, deletedAt := none, updatedAt := some t' } := by
    unfold restoreMark
    rw [find?_key_of_map _ i _ hkeyg, hfind1]
    have : (({ d with deleted := true, deletedAt := some t } : DocOf α).key == i)
        = true := hkey
    simp only [Option.map_some', this, if_pos]
  have hany1 : (softDeleteMark coll i t).any (fun x => x.key == i) = true :=
    List.any_eq_true.mpr
      ⟨{ d with deleted := true, deletedAt := some t },
        List.mem_of_find?_eq_some hfind1, hkey⟩
  refine ⟨?_, ?_, ?_, ?_, ?_, rfl, rfl, ?_, ?_, rfl⟩
  · simp only [svcDelete, hany, if_pos]
  · simp only [svcGet, hfind1]
    simp
  · intro limit c x hx
    have hx1 : x ∈ (applyCursor (softDeleteMark coll i t)
        ((softDeleteMark coll i t).filter
          (statusFilter true .nonDeleted)) c).take limit :=
      (List.mem_filter.mp hx).1
    have hx2 := mem_applyCursor _ _ c x (List.mem_of_mem_take hx1)
    have hx3 := List.mem_filter.mp hx2
    have hdel : x.deleted = false := by
      have := hx3.2
      simp only [statusFilter] at this
      simpa using this
    exact mem_softDeleteMark_ne_key coll i t x hx3.1 hdel
  · intro pred limit c x hx
    have hx1 : x ∈ (applyCursor (softDeleteMark coll i t)
        ((softDeleteMark coll i t).filter
          (fun y => pred y && (!true || !y.deleted))) c).take limit :=
      (List.mem_filter.mp hx).1
    have hx2 := mem_applyCursor _ _ c x (List.mem_of_mem_take hx1)
    have hx3 := List.mem_filter.mp hx2
    have hdel : x.deleted = false := by
      have := hx3.2
      simp at this
      exact this.2
    exact mem_softDeleteMark_ne_key coll i t x hx3.1 hdel
  · simp only [svcGet, hfind1]
    simp [hvalid]
  · simp only [svcRestore, hany1, if_pos]
  · simp only [svcGet, hfind2]
    simp [hvalid]

/-- C5 witness: a two-record collection; deleting record 1 hides it from
reads and listings, include_deleted still sees it, restore brings it back
live. -/
theorem C5_witness :
    ([mkDoc 1 false true, mkDoc 2 false true] : List (DocOf Unit)).find?
        (fun x => x.key == 1) = some (mkDoc 1 false true) ∧
    (svcDelete true [mkDoc 1 false true, mkDoc 2 false true] 1 10 =
        some (softDeleteMark [mkDoc 1 false true, mkDoc 2 false true] 1 10) ∧
      svcGet true (softDeleteMark [mkDoc 1 false true, mkDoc 2 false true] 1 10)
        1 false = none ∧
      (∀ limit c, ∀ x ∈ (svcGetAll true
          (softDeleteMark [mkDoc 1 false true, mkDoc 2 false true] 1 10)
          .nonDeleted limit c).1, x.key ≠ 1) ∧
      (∀ (pred : DocOf Unit → Bool) limit c,
        ∀ x ∈ (svcWhere true
          (softDeleteMark [mkDoc 1 false true, mkDoc 2 false true] 1 10)
          pred limit c).1, x.key ≠ 1) ∧
      svcGet true (softDeleteMark [mkDoc 1 false true, mkDoc 2 false true] 1 10)
          1 true =
        some { mkDoc 1 false true with deleted := true, deletedAt := some 10 } ∧
      ({ mkDoc 1 false true with deleted := true, deletedAt := some 10 } :
        DocOf Unit).deleted = true ∧
      ({ mkDoc 1 false true with deleted := true, deletedAt := some 10 } :
        DocOf Unit).deletedAt = some 10 ∧
      svcRestore true (softDeleteMark [mkDoc 1 false true, mkDoc 2 false true] 1 10)
          1 20 =
        some (restoreMark
          (softDeleteMark [mkDoc 1 false true, mkDoc 2 false true] 1 10) 1 20) ∧
      svcGet true (restoreMark
          (softDeleteMark [mkDoc 1 false true, mkDoc 2 false true] 1 10) 1 20)
          1 false =
        some { mkDoc 1 false true with
                 deleted := false, deletedAt := none, updatedAt := some 20 } ∧
      ({ mkDoc 1 false true with
           deleted := false, deletedAt := none, updatedAt := some 20 } :
        DocOf Unit).deleted = false) :=
  ⟨by decide,
   C5_soft_delete_visibility [mkDoc 1 false true, mkDoc 2 false true]
     (mkDoc 1 false true) 1 10 20 (by decide) (by decide)⟩

end Cognify
